import Mathlib

/-
Shallow embedding of the retrieval core of `backend/knowledge_base_agent.py`
(class `KnowledgeBase`): the in-memory post store (a Python dict, modelled as
an insertion-ordered association list), the FAISS vector store (modelled as
the list of LangChain `Document`s it holds; the ranking it produces for a
fixed query is an external input, since it depends on the opaque OpenAI
embeddings), and the search pipeline `_search_with_rag`.  Floating-point
scores are modelled as rationals.
-/

namespace KBA

/-- Pydantic model `Post` (fields `id`, `title`, `content`, `tags`,
`language`, `created_at`). -/
structure Post where
  id : String
  title : String
  content : String
  tags : List String
  language : String
  created_at : Option String
deriving DecidableEq

/-- Pydantic model `SearchResult` (fields `post_id`, `title`,
`relevance_score`, `matched_content`, `reason`). -/
structure SearchResult where
  post_id : String
  title : String
  relevance_score : ℚ
  matched_content : String
  reason : String
deriving DecidableEq

/-- A LangChain `Document` as built by `_generate_all_embeddings` /
`_add_post_to_vector_store`: `page_content` plus the metadata keys
`post_id`, `title`, `tags`, `language`. -/
structure VDoc where
  page_content : String
  post_id : String
  title : String
  tags : String
  language : String
deriving DecidableEq

/-- Lookup in the `self.posts` dict (`post_id in self.posts` /
`self.posts[post_id]`), on the insertion-ordered association-list model. -/
def lookupPost : List (String × Post) → String → Option Post
  | [], _ => none
  | (k, p) :: rest, i => if k = i then some p else lookupPost rest i

/-- Dict assignment `self.posts[post.id] = post`: overwrite in place when the
key exists, append otherwise. -/
def upsertPost : List (String × Post) → Post → List (String × Post)
  | [], p => [(p.id, p)]
  | (k, q) :: rest, p => if k = p.id then (k, p) :: rest else (k, q) :: upsertPost rest p

/-- The `Document` built from a post: `page_content = f"{post.title}. {post.content}"`,
metadata `post_id`, `title`, `tags = ', '.join(post.tags)`, `language`. -/
def postToDoc (p : Post) : VDoc :=
  VDoc.mk (p.title ++ ". " ++ p.content) p.id p.title (String.intercalate ", " p.tags) p.language

/-- `similarity_score = 1.0 / (1.0 + float(score)) if score > 0 else 1.0`. -/
def distToSim (score : ℚ) : ℚ :=
  if 0 < score then 1 / (1 + score) else 1

/-- `_extract_relevant_snippet_semantic`: truncate `content` to `maxLength`
characters and append `"..."` when it is longer, return it unchanged otherwise. -/
def extractSnippet (content : String) (maxLength : ℕ) : String :=
  if maxLength < content.length then content.take maxLength ++ "..." else content

/-- Python's `f"{x:.3f}"` on the (rational-modelled) similarity score:
three decimal places. -/
def fmt3 (q : ℚ) : String :=
  let n : ℤ := round (q * 1000)
  let fs := toString (n % 1000).toNat
  toString (n / 1000) ++ "." ++ String.mk (List.replicate (3 - fs.length) '0') ++ fs

/-- The `SearchResult` constructed for an accepted candidate inside
`_search_with_rag`: id and title come from the store's post, the score from
`distToSim`, the snippet from the post's content (max length 200), and the
reason string embeds the score and the post's tags. -/
def mkSearchResult (post : Post) (score : ℚ) : SearchResult :=
  let s := distToSim score
  SearchResult.mk post.id post.title s (extractSnippet post.content 200)
    ("Semantic similarity: " ++ fmt3 s ++
      (if post.tags.isEmpty then "" else "; Tags: " ++ String.intercalate ", " post.tags))

/-- The language guard: the loop line
`if language and doc.metadata.get('language', '') != language: continue`
lets a candidate through iff the filter is absent, falsy (empty string), or
matches the document metadata's language. -/
def matchesLang : Option String → VDoc → Bool
  | none, _ => true
  | some l, d => l = "" || d.language = l

/-- One iteration body of the `for doc, score in docs_with_scores` loop:
`none` models `continue` (language mismatch, falsy `post_id`, or
`post_id not in self.posts`), `some r` models appending the result `r`. -/
def ragStep (posts : List (String × Post)) (language : Option String) (c : VDoc × ℚ) :
    Option SearchResult :=
  if matchesLang language c.1 then
    if c.1.post_id = "" then none
    else
      match lookupPost posts c.1.post_id with
      | some post => some (mkSearchResult post c.2)
      | none => none
  else none

/-- Whether a candidate is accepted by the loop body (language passes, the
`post_id` metadata is truthy, and the post is still in the store). -/
def accepted (posts : List (String × Post)) (language : Option String) (c : VDoc × ℚ) : Bool :=
  matchesLang language c.1 && (!(c.1.post_id = "") && (lookupPost posts c.1.post_id).isSome)

/-- The candidate loop of `_search_with_rag`: accumulate accepted candidates
in order, breaking as soon as `len(results) >= top_k`. -/
def ragLoop (posts : List (String × Post)) (language : Option String) (top_k : ℕ) :
    List (VDoc × ℚ) → List SearchResult → List SearchResult
  | [], acc => acc
  | c :: rest, acc =>
    match ragStep posts language c with
    | none => ragLoop posts language top_k rest acc
    | some r =>
      if top_k ≤ (acc ++ [r]).length then acc ++ [r]
      else ragLoop posts language top_k rest (acc ++ [r])

/-- `fetch_k = top_k * 3 if language else top_k` (a `None` or empty-string
filter is falsy). -/
def fetchK (language : Option String) (top_k : ℕ) : ℕ :=
  match language with
  | none => top_k
  | some l => if l = "" then top_k else top_k * 3

/-- `_search_with_rag`.  `ranked` models the vector store's full candidate
list for the query, ordered by ascending distance;
`similarity_search_with_score(query, k)` returns its first `k` entries
(all of them when `k` exceeds the index size). -/
def searchWithRag (posts : List (String × Post)) (ranked : List (VDoc × ℚ))
    (top_k : ℕ) (language : Option String) : List SearchResult :=
  ragLoop posts language top_k (ranked.take (fetchK language top_k)) []

/-- The mutable state of a `KnowledgeBase` instance: the `posts` dict and the
optional FAISS store (`None` until a successful build). `self.embeddings` is
always set after `__init__` succeeds, so it is not modelled separately. -/
structure KBState where
  posts : List (String × Post)
  vector_store : Option (List VDoc)
deriving DecidableEq

/-- The `RuntimeError` raised by `search_posts` when `self.vector_store` is
not initialized. -/
inductive SearchError where
  | indexNotReady
deriving DecidableEq

/-- `_generate_all_embeddings`: build documents from every post in the dict;
when the list is non-empty replace the vector store with a fresh one, when it
is empty return without touching `self.vector_store` (no exception is
raised on an empty corpus). -/
def generateAllEmbeddings (posts : List (String × Post)) (old : Option (List VDoc)) :
    Option (List VDoc) :=
  let documents := posts.map (fun kp => postToDoc kp.2)
  if documents.isEmpty then old else some documents

/-- `__init__` after a successful embeddings setup: `load_posts` fills the
dict keyed by `post.id`, then `_generate_all_embeddings` runs with
`self.vector_store` still `None`. -/
def initKB (loaded : List Post) : KBState :=
  let posts := loaded.foldl (fun acc p => upsertPost acc p) []
  KBState.mk posts (generateAllEmbeddings posts none)

/-- `add_post`: store the post in the dict, then (since `self.embeddings` is
always set) append its document to the vector store only when the store
exists; with `vector_store = None` nothing is indexed. -/
def add_post (kb : KBState) (p : Post) : KBState :=
  KBState.mk (upsertPost kb.posts p)
    (match kb.vector_store with
     | none => none
     | some vs => some (vs ++ [postToDoc p]))

/-- `search_posts`: raise when the vector store was never initialized,
otherwise run `_search_with_rag`. -/
def search_posts (kb : KBState) (ranked : List (VDoc × ℚ)) (top_k : ℕ)
    (language : Option String) : Except SearchError (List SearchResult) :=
  match kb.vector_store with
  | none => Except.error SearchError.indexNotReady
  | some _ => Except.ok (searchWithRag kb.posts ranked top_k language)

/-- A candidate list is a faithful ranking of a vector store's contents:
its documents are a permutation of the store and its distances ascend. -/
def ranksStore (vs : List VDoc) (ranked : List (VDoc × ℚ)) : Prop :=
  (ranked.map Prod.fst).Perm vs ∧ (ranked.map Prod.snd).Sorted (· ≤ ·)

/-- Concrete post used in witness scenarios (present in the store). -/
def demoPostA : Post := Post.mk "a" "Alpha" "alpha body" ["t1"] "en" none

/-- Concrete post whose index record is stale: it was indexed but later
removed from the store without a rebuild. -/
def demoPostB : Post := Post.mk "b" "Beta" "beta body" [] "zh-CN" none

/-- Concrete post used in witness scenarios (present in the store). -/
def demoPostC : Post := Post.mk "c" "Gamma" "gamma body" [] "en" none

/-- A store holding posts `a` and `c`; post `b` was removed after indexing. -/
def demoStore : List (String × Post) := [("a", demoPostA), ("c", demoPostC)]

/-- The index ranking for some fixed query over the three indexed posts,
ascending distances, with the stale record for `b` ranked first. -/
def demoRanked : List (VDoc × ℚ) :=
  [(postToDoc demoPostB, 1), (postToDoc demoPostA, 2), (postToDoc demoPostC, 3)]

/-- First version of a post, indexed at build time with language `en`. -/
def dupPost1 : Post := Post.mk "p1" "Old Title" "old content" [] "en" none

/-- Overwriting version of the same post id, added later with language `zh-CN`. -/
def dupPost2 : Post := Post.mk "p1" "New Title" "new content" [] "zh-CN" none

/-- The knowledge base reached by building over `dupPost1` and then calling
`add_post` with `dupPost2` (same id, different language): the dict holds one
entry while the vector store holds two records for id `p1`. -/
def dupKB : KBState := add_post (initKB [dupPost1]) dupPost2

/-- The vector store contents of `dupKB`. -/
def dupVS : List VDoc := [postToDoc dupPost1, postToDoc dupPost2]

/-- A ranking of `dupVS` for some fixed query: both records for `p1`, the
stale `en` one nearer. -/
def dupRanked : List (VDoc × ℚ) := [(postToDoc dupPost1, 1), (postToDoc dupPost2, 2)]

theorem lookupPost_mem {posts : List (String × Post)} {i : String} {p : Post}
    (h : lookupPost posts i = some p) : (i, p) ∈ posts := by
  induction posts with
  | nil => simp [lookupPost] at h
  | cons kp rest ih =>
    obtain ⟨k, q⟩ := kp
    by_cases hk : k = i
    · subst hk
      simp [lookupPost] at h
      subst h
      exact List.mem_cons_self _ _
    · simp [lookupPost, hk] at h
      exact List.mem_cons_of_mem _ (ih h)

theorem lookupPost_upsert_self (posts : List (String × Post)) (p : Post) :
    lookupPost (upsertPost posts p) p.id = some p := by
  induction posts with
  | nil => simp [upsertPost, lookupPost]
  | cons kp rest ih =>
    obtain ⟨k, q⟩ := kp
    by_cases hk : k = p.id
    · simp [upsertPost, hk, lookupPost]
    · simp [upsertPost, hk, lookupPost, ih]

theorem ragStep_eq_some {posts : List (String × Post)} {language : Option String}
    {c : VDoc × ℚ} {r : SearchResult} (h : ragStep posts language c = some r) :
    ∃ post, matchesLang language c.1 = true ∧ c.1.post_id ≠ "" ∧
      lookupPost posts c.1.post_id = some post ∧ r = mkSearchResult post c.2 := by
  cases hm : matchesLang language c.1 with
  | false => simp [ragStep, hm] at h
  | true =>
    by_cases hp : c.1.post_id = ""
    · simp [ragStep, hm, hp] at h
    · cases hl : lookupPost posts c.1.post_id with
      | none => simp [ragStep, hm, hp, hl] at h
      | some post =>
        simp [ragStep, hm, hp, hl] at h
        exact ⟨post, rfl, hp, rfl, h.symm⟩

theorem ragStep_isSome_eq (posts : List (String × Post)) (language : Option String)
    (c : VDoc × ℚ) : (ragStep posts language c).isSome = accepted posts language c := by
  cases hm : matchesLang language c.1 with
  | false => simp [ragStep, accepted, hm]
  | true =>
    by_cases hp : c.1.post_id = ""
    · simp [ragStep, accepted, hm, hp]
    · cases hl : lookupPost posts c.1.post_id with
      | none => simp [ragStep, accepted, hm, hp, hl]
      | some post => simp [ragStep, accepted, hm, hp, hl]

theorem ragLoop_length (posts : List (String × Post)) (language : Option String)
    (top_k : ℕ) : ∀ (cands : List (VDoc × ℚ)) (acc : List SearchResult),
      acc.length < top_k →
      (ragLoop posts language top_k cands acc).length
        = min top_k (acc.length + cands.countP (accepted posts language)) := by
  intro cands
  induction cands with
  | nil =>
    intro acc h
    simp [ragLoop]
    omega
  | cons c rest ih =>
    intro acc h
    cases hs : ragStep posts language c with
    | none =>
      have hacc : accepted posts language c = false := by
        rw [← ragStep_isSome_eq, hs]
        rfl
      simp only [ragLoop, hs]
      rw [List.countP_cons, hacc]
      simpa using ih acc h
    | some r =>
      have hacc : accepted posts language c = true := by
        rw [← ragStep_isSome_eq, hs]
        rfl
      simp only [ragLoop, hs]
      rw [List.countP_cons, hacc]
      split
      · rename_i hb
        simp at hb ⊢
        omega
      · rename_i hb
        rw [ih (acc ++ [r]) (by simp at hb ⊢; omega)]
        simp
        omega

theorem ragLoop_mem (posts : List (String × Post)) (language : Option String)
    (top_k : ℕ) : ∀ (cands : List (VDoc × ℚ)) (acc : List SearchResult)
      (r : SearchResult), r ∈ ragLoop posts language top_k cands acc →
      r ∈ acc ∨ ∃ c ∈ cands, ragStep posts language c = some r := by
  intro cands
  induction cands with
  | nil =>
    intro acc r h
    left
    simpa [ragLoop] using h
  | cons c rest ih =>
    intro acc r h
    cases hs : ragStep posts language c with
    | none =>
      simp only [ragLoop, hs] at h
      rcases ih acc r h with h1 | ⟨c', hc', hstep⟩
      · exact Or.inl h1
      · exact Or.inr ⟨c', List.mem_cons_of_mem _ hc', hstep⟩
    | some r' =>
      simp only [ragLoop, hs] at h
      split at h
      · rcases List.mem_append.1 h with h1 | h2
        · exact Or.inl h1
        · simp at h2
          subst h2
          exact Or.inr ⟨c, List.mem_cons_self _ _, hs⟩
      · rcases ih (acc ++ [r']) r h with h1 | ⟨c', hc', hstep⟩
        · rcases List.mem_append.1 h1 with h3 | h4
          · exact Or.inl h3
          · simp at h4
            subst h4
            exact Or.inr ⟨c, List.mem_cons_self _ _, hs⟩
        · exact Or.inr ⟨c', List.mem_cons_of_mem _ hc', hstep⟩

theorem distToSim_pos (d : ℚ) : 0 < distToSim d := by
  unfold distToSim
  split
  · rename_i h
    exact div_pos one_pos (by linarith)
  · norm_num

theorem distToSim_le_one (d : ℚ) : distToSim d ≤ 1 := by
  unfold distToSim
  split
  · rename_i h
    rw [div_le_one (by linarith)]
    linarith
  · exact le_refl 1

theorem distToSim_anti {a b : ℚ} (h : a ≤ b) : distToSim b ≤ distToSim a := by
  by_cases hb : 0 < b
  · by_cases ha : 0 < a
    · simp only [distToSim, if_pos ha, if_pos hb]
      exact one_div_le_one_div_of_le (by linarith) (by linarith)
    · simp only [distToSim, if_pos hb, if_neg ha]
      rw [div_le_one (by linarith)]
      linarith
  · have ha : ¬ 0 < a := by
      intro h0
      exact hb (lt_of_lt_of_le h0 h)
    simp [distToSim, ha, hb]

theorem mkSearchResult_score (post : Post) (s : ℚ) :
    (mkSearchResult post s).relevance_score = distToSim s := rfl

theorem ragLoop_sorted (posts : List (String × Post)) (language : Option String)
    (top_k : ℕ) : ∀ (cands : List (VDoc × ℚ)) (acc : List SearchResult),
      (cands.map Prod.snd).Sorted (· ≤ ·) →
      acc.Sorted (fun a b => b.relevance_score ≤ a.relevance_score) →
      (∀ r ∈ acc, ∀ c ∈ cands, distToSim c.2 ≤ r.relevance_score) →
      (ragLoop posts language top_k cands acc).Sorted
        (fun a b => b.relevance_score ≤ a.relevance_score) := by
  intro cands
  induction cands with
  | nil =>
    intro acc _ hacc _
    simpa [ragLoop] using hacc
  | cons c rest ih =>
    intro acc hsorted hacc hbound
    have hhead : ∀ x ∈ rest.map Prod.snd, c.2 ≤ x := (List.sorted_cons.1 hsorted).1
    have hsrest : (rest.map Prod.snd).Sorted (· ≤ ·) := (List.sorted_cons.1 hsorted).2
    cases hs : ragStep posts language c with
    | none =>
      simp only [ragLoop, hs]
      exact ih acc hsrest hacc
        (fun r hr c' hc' => hbound r hr c' (List.mem_cons_of_mem _ hc'))
    | some r =>
      obtain ⟨post, _, _, _, hr⟩ := ragStep_eq_some hs
      have hscore : r.relevance_score = distToSim c.2 := by
        rw [hr, mkSearchResult_score]
      have hacc' : (acc ++ [r]).Sorted (fun a b => b.relevance_score ≤ a.relevance_score) := by
        rw [List.Sorted, List.pairwise_append]
        refine ⟨hacc, List.pairwise_singleton _ _, ?_⟩
        intro x hx y hy
        simp at hy
        subst hy
        rw [hscore]
        exact hbound x hx c (List.mem_cons_self _ _)
      simp only [ragLoop, hs]
      split
      · exact hacc'
      · apply ih (acc ++ [r]) hsrest hacc'
        intro x hx c' hc'
        rcases List.mem_append.1 hx with h1 | h2
        · exact hbound x h1 c' (List.mem_cons_of_mem _ hc')
        · simp at h2
          subst h2
          rw [hscore]
          exact distToSim_anti (hhead c'.2 (List.mem_map_of_mem _ hc'))

/-- Claim C1, counterexample: building over zero records does NOT raise any
error — `_generate_all_embeddings` returns without touching the vector
store, so initialization over an empty corpus yields a state with an absent
index rather than failing. -/
theorem C1_build_empty_counterexample :
    generateAllEmbeddings [] none = none ∧ (initKB []).vector_store = none :=
  ⟨rfl, rfl⟩

/-- Claim C1 (amended): building the index over zero records raises nothing —
it leaves the vector store unchanged (absent after initialization over an
empty corpus) — and a search issued against an index that was never
successfully built fails with the index-not-ready error. -/
theorem C1_empty_corpus_contract (old : Option (List VDoc)) (ranked : List (VDoc × ℚ))
    (k : ℕ) (lang : Option String) :
    generateAllEmbeddings [] old = old ∧
    initKB [] = KBState.mk [] none ∧
    search_posts (initKB []) ranked k lang = Except.error SearchError.indexNotReady :=
  ⟨rfl, rfl, rfl⟩

/-- Claim C2, counterexample: after building over a post with language `en`
and then adding a post with the same id but language `zh-CN`, a search with
`language_filter = "en"` returns the post `p1`, whose current document in
the store has language `zh-CN`, not `en`: the filter checks the stale index
metadata, not the document. -/
theorem C2_language_filter_counterexample :
    dupKB.posts = [("p1", dupPost2)] ∧
    dupKB.vector_store = some dupVS ∧
    ranksStore dupVS dupRanked ∧
    (search_posts dupKB dupRanked 1 (some "en")).toOption.map
      (List.map SearchResult.post_id) = some ["p1"] ∧
    lookupPost dupKB.posts "p1" = some dupPost2 ∧
    dupPost2.language = "zh-CN" ∧ dupPost2.language ≠ "en" := by
  refine ⟨by decide, by decide, ⟨by decide, by decide⟩, by decide, by decide, rfl, by decide⟩

/-- Claim C2 (amended): the language filter is sound with respect to the
index records' metadata; whenever that metadata agrees with the store (as it
does in any state with no overwriting add), every returned result references
a document whose language equals the requested filter. -/
theorem C2_language_filter_soundness (posts : List (String × Post))
    (ranked : List (VDoc × ℚ)) (k : ℕ) (L : String) (hL : L ≠ "")
    (hwf : ∀ kp ∈ posts, (kp : String × Post).2.id = kp.1)
    (hcons : ∀ c ∈ ranked, ∀ p, lookupPost posts (c : VDoc × ℚ).1.post_id = some p →
      p.language = c.1.language) :
    ∀ r ∈ searchWithRag posts ranked k (some L), ∀ p,
      lookupPost posts r.post_id = some p → p.language = L := by
  intro r hr p hp
  rcases ragLoop_mem posts (some L) k _ [] r hr with h0 | ⟨c, hc, hstep⟩
  · exact absurd h0 (List.not_mem_nil r)
  · obtain ⟨post, hm, hpid, hl, hr'⟩ := ragStep_eq_some hstep
    have hcr : c ∈ ranked := List.take_subset _ _ hc
    have hid : post.id = c.1.post_id := hwf _ (lookupPost_mem hl)
    have hrid : r.post_id = post.id := by
      rw [hr']
      rfl
    rw [hrid, hid, hl] at hp
    have hp' : p = post := by
      injection hp with h4
      exact h4.symm
    subst hp'
    have hlang : p.language = c.1.language := hcons c hcr p hl
    have hcl : c.1.language = L := by
      simp [matchesLang, hL] at hm
      exact hm
    rw [hlang, hcl]

/-- Claim C2 witness: on the consistent demo corpus the filtered search
returns post `a`, whose document has the requested language `en`. -/
theorem C2_language_filter_soundness_witness : demoPostA.language = "en" :=
  C2_language_filter_soundness demoStore demoRanked 1 "en" (by decide) (by decide)
    (by decide) (mkSearchResult demoPostA 2)
    (by
      rw [show searchWithRag demoStore demoRanked 1 (some "en")
          = [mkSearchResult demoPostA 2] from rfl]
      exact List.mem_singleton.mpr rfl)
    demoPostA (by decide)

/-- Claim C3: the relevance score attached to a candidate with distance
`d ≥ 0` equals `1 / (1 + d)` when `d > 0`, equals `1` when `d = 0`, and
lies in `(0, 1]`. -/
theorem C3_similarity_mapping (d : ℚ) (h : 0 ≤ d) :
    (0 < d → distToSim d = 1 / (1 + d)) ∧ (d = 0 → distToSim d = 1) ∧
    0 < distToSim d ∧ distToSim d ≤ 1 :=
  ⟨fun hd => by simp [distToSim, hd], fun hd => by simp [distToSim, hd],
    distToSim_pos d, distToSim_le_one d⟩

/-- Claim C3 witness: the mapping and its bounds at the concrete distance 2. -/
theorem C3_similarity_mapping_witness :
    (0 : ℚ) ≤ 2 ∧
    ((0 < (2 : ℚ) → distToSim 2 = 1 / (1 + 2)) ∧ ((2 : ℚ) = 0 → distToSim 2 = 1) ∧
      0 < distToSim 2 ∧ distToSim 2 ≤ 1) :=
  ⟨by norm_num, C3_similarity_mapping 2 (by norm_num)⟩

/-- Claim C4: for every store, every candidate ranking, every positive
`top_k` and any optional language filter, the result list of
`_search_with_rag` has length at most `top_k`. -/
theorem C4_search_length_le_topk (posts : List (String × Post))
    (ranked : List (VDoc × ℚ)) (k : ℕ) (lang : Option String) (hk : 1 ≤ k) :
    (searchWithRag posts ranked k lang).length ≤ k := by
  unfold searchWithRag
  rw [ragLoop_length posts lang k _ [] (by simpa using hk)]
  exact min_le_left _ _

/-- Claim C4 witness: on the demo corpus with `top_k = 2` the result list
has at most 2 entries. -/
theorem C4_search_length_le_topk_witness :
    1 ≤ 2 ∧ (searchWithRag demoStore demoRanked 2 none).length ≤ 2 :=
  ⟨by norm_num, C4_search_length_le_topk demoStore demoRanked 2 none (by norm_num)⟩

/-- Claim C5: when the vector index yields candidates in ascending order of
distance, the result list is sorted by descending `relevance_score`. -/
theorem C5_results_sorted_desc (posts : List (String × Post))
    (ranked : List (VDoc × ℚ)) (k : ℕ) (lang : Option String)
    (h : (ranked.map Prod.snd).Sorted (· ≤ ·)) :
    (searchWithRag posts ranked k lang).Sorted
      (fun a b => b.relevance_score ≤ a.relevance_score) := by
  unfold searchWithRag
  apply ragLoop_sorted
  · rw [List.map_take]
    exact List.Pairwise.sublist (List.take_sublist _ _) h
  · exact List.sorted_nil
  · intro r hr
    exact absurd hr (List.not_mem_nil r)

/-- Claim C5 witness: the demo ranking ascends, so the unfiltered search
results descend in relevance score. -/
theorem C5_results_sorted_desc_witness :
    (demoRanked.map Prod.snd).Sorted (· ≤ ·) ∧
    (searchWithRag demoStore demoRanked 2 none).Sorted
      (fun a b => b.relevance_score ≤ a.relevance_score) :=
  ⟨by decide, C5_results_sorted_desc demoStore demoRanked 2 none (by decide)⟩

/-- Claim C6: with a non-empty language filter `L` the engine over-fetches
`top_k * 3` candidates, and whenever at least `top_k` of those over-fetched
candidates are accepted (metadata language `L`, truthy id, and present in
the store), the filtered result list has exactly `top_k` entries. -/
theorem C6_language_filter_completeness (posts : List (String × Post))
    (ranked : List (VDoc × ℚ)) (k : ℕ) (L : String) (hk : 1 ≤ k) (hL : L ≠ "")
    (hm : k ≤ (ranked.take (k * 3)).countP (accepted posts (some L))) :
    fetchK (some L) k = k * 3 ∧
    (searchWithRag posts ranked k (some L)).length = k := by
  have hf : fetchK (some L) k = k * 3 := by simp [fetchK, hL]
  refine ⟨hf, ?_⟩
  unfold searchWithRag
  rw [hf, ragLoop_length posts (some L) k _ [] (by simpa using hk)]
  simp
  omega

/-- Claim C6 witness: on the demo corpus with `L = "en"` and `top_k = 1`,
two of the three over-fetched candidates are accepted, so the filtered
result has exactly one entry. -/
theorem C6_language_filter_completeness_witness :
    1 ≤ 1 ∧ "en" ≠ "" ∧
    1 ≤ (demoRanked.take (1 * 3)).countP (accepted demoStore (some "en")) ∧
    (fetchK (some "en") 1 = 1 * 3 ∧
      (searchWithRag demoStore demoRanked 1 (some "en")).length = 1) :=
  ⟨by norm_num, by decide, by decide,
    C6_language_filter_completeness demoStore demoRanked 1 "en" (by norm_num)
      (by decide) (by decide)⟩

/-- Claim C7: with an initialized vector store, `search_posts` never raises
(it returns `ok`), and every returned result references a post still present
in the store — candidates whose post was removed are silently skipped. -/
theorem C7_stale_reference_tolerance (posts : List (String × Post)) (vs : List VDoc)
    (ranked : List (VDoc × ℚ)) (k : ℕ) (lang : Option String) :
    search_posts (KBState.mk posts (some vs)) ranked k lang
        = Except.ok (searchWithRag posts ranked k lang) ∧
    ∀ r ∈ searchWithRag posts ranked k lang, ∃ kp ∈ posts,
      r.post_id = (kp : String × Post).2.id := by
  refine ⟨rfl, ?_⟩
  intro r hr
  rcases ragLoop_mem posts lang k _ [] r hr with h0 | ⟨c, hc, hstep⟩
  · exact absurd h0 (List.not_mem_nil r)
  · obtain ⟨post, _, _, hl, hr'⟩ := ragStep_eq_some hstep
    refine ⟨(c.1.post_id, post), lookupPost_mem hl, ?_⟩
    rw [hr']
    rfl

/-- Claim C7 witness: the index was built over posts `a`, `b`, `c` but `b`
was removed from the store; search returns only post `a` among the top-2
candidates, and that result is drawn from the store. -/
theorem C7_stale_reference_tolerance_witness :
    ∃ kp ∈ demoStore, (mkSearchResult demoPostA 2).post_id = (kp : String × Post).2.id :=
  (C7_stale_reference_tolerance demoStore (demoRanked.map Prod.fst) demoRanked 2 none).2
    (mkSearchResult demoPostA 2)
    (by
      rw [show searchWithRag demoStore demoRanked 2 none
          = [mkSearchResult demoPostA 2] from rfl]
      exact List.mem_singleton.mpr rfl)

/-- Claim C8: when the vector store was never built, `add_post` stores the
document in the posts mapping (it becomes retrievable by id) but performs no
vector insertion, and a subsequent search still fails with the
index-not-ready error. -/
theorem C8_add_post_unindexed (kb : KBState) (p : Post) (ranked : List (VDoc × ℚ))
    (k : ℕ) (lang : Option String) (h : kb.vector_store = none) :
    (add_post kb p).posts = upsertPost kb.posts p ∧
    lookupPost (add_post kb p).posts p.id = some p ∧
    (add_post kb p).vector_store = none ∧
    search_posts (add_post kb p) ranked k lang
      = Except.error SearchError.indexNotReady := by
  have h2 : (add_post kb p).vector_store = none := by
    simp [add_post, h]
  refine ⟨rfl, lookupPost_upsert_self _ _, h2, ?_⟩
  unfold search_posts
  rw [h2]

/-- Claim C8 witness: adding a post to a knowledge base initialized over an
empty corpus leaves it unindexed and search still raises. -/
theorem C8_add_post_unindexed_witness :
    (initKB []).vector_store = none ∧
    ((add_post (initKB []) demoPostA).posts = upsertPost (initKB []).posts demoPostA ∧
      lookupPost (add_post (initKB []) demoPostA).posts demoPostA.id = some demoPostA ∧
      (add_post (initKB []) demoPostA).vector_store = none ∧
      search_posts (add_post (initKB []) demoPostA) demoRanked 1 none
        = Except.error SearchError.indexNotReady) :=
  ⟨rfl, C8_add_post_unindexed (initKB []) demoPostA demoRanked 1 none rfl⟩

/-- Claim C9: without a language filter the engine fetches exactly `top_k`
candidates (no over-fetch), so when only `top_k - s` of the top `top_k`
candidates are still live in the store, the unfiltered search returns only
`top_k - s` results. -/
theorem C9_unfiltered_no_overfetch (posts : List (String × Post))
    (ranked : List (VDoc × ℚ)) (t s : ℕ) (ht : 1 ≤ t) (hs : s ≤ t)
    (hstale : (ranked.take t).countP (accepted posts none) = t - s) :
    fetchK none t = t ∧ (searchWithRag posts ranked t none).length = t - s := by
  refine ⟨rfl, ?_⟩
  unfold searchWithRag
  rw [ragLoop_length posts none t _ [] (by simpa using ht)]
  have hf : fetchK none t = t := rfl
  rw [hf, hstale]
  simp

/-- Claim C9 witness: the demo index's top-2 candidates contain one stale
record (post `b` was removed), so the unfiltered search with `top_k = 2`
returns a single result despite the store holding two live posts. -/
theorem C9_unfiltered_no_overfetch_witness :
    1 ≤ 2 ∧ 1 ≤ 2 ∧
    (demoRanked.take 2).countP (accepted demoStore none) = 2 - 1 ∧
    (fetchK none 2 = 2 ∧ (searchWithRag demoStore demoRanked 2 none).length = 2 - 1) :=
  ⟨by norm_num, by norm_num, by decide,
    C9_unfiltered_no_overfetch demoStore demoRanked 2 1 (by norm_num) (by norm_num)
      (by decide)⟩

/-- Claim C10: search results are not deduplicated. Building over a post and
then calling `add_post` with the same id leaves exactly one entry in the
posts mapping but two records in the vector index, and an unfiltered search
with `top_k = 2` over a faithful ranking of that index returns two results
with the same `post_id`. -/
theorem C10_duplicate_ids_in_results :
    dupKB.posts = [("p1", dupPost2)] ∧
    dupKB.vector_store = some dupVS ∧
    ranksStore dupVS dupRanked ∧
    (search_posts dupKB dupRanked 2 none).toOption.map
      (List.map SearchResult.post_id) = some ["p1", "p1"] := by
  refine ⟨by decide, by decide, ⟨by decide, by decide⟩, by decide⟩

end KBA
